import Mathlib

/-!
Verification of the PDF-OCR conversion pipeline (Next.js route handlers).

The definitions below are a shallow embedding of the two route handlers:
the `/api/progress` GET/POST handlers (in-memory progress store) and the
`/api/process-pdf` POST handler (rasterization fallback chain, chunked
OCR scheduling with retry, code-fence cleanup, document assembly).
-/

namespace PdfOcr

/-! ## Progress store (`/api/progress`) -/

/-- The per-job progress record held in `progressStore`.  Fields mirror the
map value type: totalPages, processedPages, currentChunk, totalChunks,
status, logs. -/
structure ProgressRecord where
  totalPages : Nat
  processedPages : Nat
  currentChunk : Nat
  totalChunks : Nat
  status : String
  logs : List String
deriving DecidableEq

/-- A progress update posted to the store.  Each field is optional, mirroring
the JSON object spread `{...existing, ...update}`; `log` is the log line
(`update.log`), where `none` plays the role of an absent/undefined field. -/
structure ProgressUpdate where
  totalPages : Option Nat := none
  processedPages : Option Nat := none
  currentChunk : Option Nat := none
  totalChunks : Option Nat := none
  status : Option String := none
  log : Option String := none
deriving DecidableEq

/-- The default record used when no entry exists for a file id
(`progressStore.get(fileId) || { totalPages: 0, ..., status: 'starting', logs: [] }`). -/
def defaultRecord : ProgressRecord :=
  { totalPages := 0, processedPages := 0, currentChunk := 0, totalChunks := 0
    status := "starting", logs := [] }

/-- JavaScript `l.slice(-n)`: the last `n` elements of `l` (all of `l` when it
is shorter than `n`). -/
def takeLast (n : Nat) (l : List α) : List α := l.drop (l.length - n)

/-- The POST merge step:
`{ ...existing, ...update, logs: [...(existing.logs || []), update.log || ''].filter(Boolean).slice(-50) }`. -/
def applyUpdate (existing : ProgressRecord) (u : ProgressUpdate) : ProgressRecord :=
  { totalPages := u.totalPages.getD existing.totalPages
    processedPages := u.processedPages.getD existing.processedPages
    currentChunk := u.currentChunk.getD existing.currentChunk
    totalChunks := u.totalChunks.getD existing.totalChunks
    status := u.status.getD existing.status
    logs := takeLast 50 ((existing.logs ++ [u.log.getD ""]).filter (fun s => s ≠ "")) }

/-- The in-memory `progressStore` map, keyed by file id. -/
def Store := String → Option ProgressRecord

/-- The store before any POST. -/
def emptyStore : Store := fun _ => none

/-- Result of the GET handler: 400 when no `fileId` query parameter, 404 when
the store has no record, otherwise the record as JSON. -/
inductive GetResult where
  | badRequest
  | notFound
  | found : ProgressRecord → GetResult
deriving DecidableEq

/-- The GET `/api/progress` handler. -/
def getProgress (store : Store) (fileId : Option String) : GetResult :=
  match fileId with
  | none => GetResult.badRequest
  | some fid =>
      match store fid with
      | none => GetResult.notFound
      | some r => GetResult.found r

/-- The POST `/api/progress` handler: get-or-default, merge, set. -/
def postProgress (store : Store) (fileId : String) (u : ProgressUpdate) : Store :=
  fun id =>
    if id = fileId then some (applyUpdate ((store fileId).getD defaultRecord) u)
    else store id

/-! ## Code-fence cleanup (`/api/process-pdf`, OCR response post-processing)

The JavaScript:
```
if (text.startsWith("```")) {
  const lines = text.split("\n");
  lines.shift();
  if (lines[lines.length - 1].trim() === "```") lines.pop();
  text = lines.join("\n");
}
```
When `lines` is empty after `shift()`, `lines[lines.length - 1]` is
`undefined` and `.trim()` throws a TypeError; the embedding returns `none`
for that thrown exception. -/

/-- The three-backtick fence marker, as a character list. -/
def fence : List Char := ['`', '`', '`']

/-- JavaScript `String.prototype.trim`, on the character-list model of a
JavaScript string. -/
def trimChars (l : List Char) : List Char :=
  ((l.dropWhile Char.isWhitespace).reverse.dropWhile Char.isWhitespace).reverse

/-- Code-fence cleanup applied to every trimmed OCR response text, with the
JavaScript string modelled as its list of characters.  `text.take 3 = fence`
is `text.startsWith("\x60\x60\x60")`, `.tail` is `lines.shift()`, and the
`getLast?` match reads `lines[lines.length - 1]`: when the line list is empty
that read yields `undefined`, so `.trim()` throws a TypeError — modelled by
`none`. -/
def cleanFences (text : List Char) : Option (List Char) :=
  if text.take 3 = fence then
    let lines := (text.splitOn '\n').tail
    match lines.getLast? with
    | none => none
    | some last =>
        let lines2 := if trimChars last = fence then lines.dropLast else lines
        some (List.intercalate ['\n'] lines2)
  else some text

/-! ## Chunked OCR pipeline (`/api/process-pdf`) -/

/-- The separator joined between page texts inside a chunk and appended
between chunks (`"\n\n---\n\n"`). -/
def SEP : String := "\n\n---\n\n"

/-- `const CHUNK_SIZE = 2`. -/
def CHUNK_SIZE : Nat := 2

/-- `const MAX_RETRIES = 2`. -/
def MAX_RETRIES : Nat := 2

/-- JavaScript `Array.prototype.join(sep)`: elements joined with `sep`
between adjacent elements and nothing after the last. -/
def joinSep (sep : String) : List String → String
  | [] => ""
  | [x] => x
  | x :: y :: xs => x ++ sep ++ joinSep sep (y :: xs)

/-- The chunk partitioning loop
(`for (let chunkStart = 0; chunkStart < images.length; chunkStart += CHUNK_SIZE)`
with `images.slice(chunkStart, chunkStart + CHUNK_SIZE)`), specialised to
`CHUNK_SIZE = 2` as in the source. -/
def chunkList : List α → List (List α)
  | [] => []
  | [a] => [[a]]
  | a :: b :: rest => [a, b] :: chunkList rest

/-- Comparison key of the post-chunk sort `(a, b) => a.pageNumber - b.pageNumber`
on `(pageNumber, text)` pairs: non-strict order on the page number. -/
def pageLe (a b : Nat × String) : Prop := a.1 ≤ b.1

/-- Strict page-number order on `(pageNumber, text)` pairs. -/
def pageLt (a b : Nat × String) : Prop := a.1 < b.1

instance : DecidableRel pageLe := fun a b => inferInstanceAs (Decidable (a.1 ≤ b.1))

instance : IsTotal (Nat × String) pageLe := ⟨fun a b => Nat.le_total a.1 b.1⟩

instance : IsTrans (Nat × String) pageLe := ⟨fun _ _ _ => Nat.le_trans⟩

instance : IsAntisymm (Nat × String) pageLt :=
  ⟨fun _ _ h1 h2 => absurd (Nat.lt_trans h1 h2) (Nat.lt_irrefl _)⟩

/-- Per-chunk assembly on a successful attempt: pair each delivered result
with its page number, sort by page number
(`chunkResults.sort((a, b) => a.pageNumber - b.pageNumber)`), project the
texts and join them with the separator.  `order` is the list of page numbers
in the order the concurrent per-page OCR calls delivered their results;
`f p` is the cleaned OCR text of page `p`. -/
def renderChunk (f : Nat → String) (order : List Nat) : String :=
  joinSep SEP ((List.insertionSort pageLe (order.map (fun p => (p, f p)))).map Prod.snd)

/-- Outcome of one attempt at one chunk: the Gemini fan-out either rejects
with an error message, or resolves with the chunk's per-page results in some
completion order (given by their page numbers). -/
inductive Outcome where
  | fail : String → Outcome
  | ok : List Nat → Outcome
deriving DecidableEq

/-- Message of the last observed error (`lastError?.message`; a missing error
prints as `undefined`). -/
def errMsg : Option String → String
  | none => "undefined"
  | some m => m

/-- The chunk attempt loop
(`for (let attempt = 1; attempt <= MAX_RETRIES + 1; attempt++)`), with
`o a` the outcome of attempt `a` and `render` the per-chunk assembly.
Returns the chunk result (the thrown
`Failed to process chunk N: <last error>` on exhaustion), the number of
attempts made, and the list of backoff delays waited
(`setTimeout(resolve, 1000 * attempt)` before each retry).  `fuel` counts the
attempts remaining; the loop is entered with `fuel = MAX_RETRIES + 1` and
`attempt = 1`. -/
def chunkLoop (o : Nat → Outcome) (render : List Nat → String) (cn : Nat) :
    Nat → Nat → Option String → Except String String × Nat × List Nat
  | 0, _, lastErr =>
      (Except.error ("Failed to process chunk " ++ toString cn ++ ": " ++ errMsg lastErr), 0, [])
  | fuel + 1, attempt, _ =>
      match o attempt with
      | Outcome.ok order => (Except.ok (render order), 1, [])
      | Outcome.fail msg =>
          let r := chunkLoop o render cn fuel (attempt + 1) (some msg)
          if attempt ≤ MAX_RETRIES then
            (r.1, r.2.1 + 1, 1000 * attempt :: r.2.2)
          else
            (r.1, r.2.1 + 1, r.2.2)

/-- The chunk result as the source consumes it (`chunkMarkdown` or the thrown
error): the attempt loop entered at attempt 1 with full fuel. -/
def runChunk (o : Nat → Outcome) (render : List Nat → String) (cn : Nat) :
    Except String String :=
  (chunkLoop o render cn (MAX_RETRIES + 1) 1 none).1

/-- The outer chunk loop: process chunks in order with 1-based chunk numbers
starting at `cn`, accumulating `fullMarkdown += chunkMarkdown` and
`fullMarkdown += SEP` between chunks (`if (chunkEnd < images.length)`).
A chunk failure throws, reaching the top-level catch, which answers with the
error's message — so an error aborts the job and discards all accumulation.
`o cn a` is the outcome of attempt `a` at chunk number `cn`. -/
def runChunks (f : Nat → String) (o : Nat → Nat → Outcome) :
    Nat → List (List Nat) → Except String String
  | _, [] => Except.ok ""
  | cn, _chunk :: rest =>
      match runChunk (o cn) (renderChunk f) cn with
      | Except.error e => Except.error e
      | Except.ok md =>
          match rest with
          | [] => Except.ok md
          | r :: rs =>
              match runChunks f o (cn + 1) (r :: rs) with
              | Except.error e => Except.error e
              | Except.ok restMd => Except.ok (md ++ SEP ++ restMd)

/-- The OCR phase of a job over an `n`-page document: pages `1..n` are
partitioned into chunks of `CHUNK_SIZE` and processed by the chunk loop.
On success the value is the final `fullMarkdown`; on failure the error
message returned to the caller. -/
def runJob (f : Nat → String) (o : Nat → Nat → Outcome) (n : Nat) : Except String String :=
  runChunks f o 1 (chunkList (List.range' 1 n))

/-! ## Ordering of assembled text (sorting lemmas) -/

theorem insertionSort_eq_of_perm {l c : List (Nat × String)}
    (hp : l.Perm c) (hc : c.Pairwise pageLt) : List.insertionSort pageLe l = c := by
  have h1 : (List.insertionSort pageLe l).Perm c :=
    (List.perm_insertionSort pageLe l).trans hp
  have hsle : (List.insertionSort pageLe l).Pairwise pageLe :=
    List.sorted_insertionSort pageLe l
  have hne_c : c.Pairwise (fun a b : Nat × String => a.1 ≠ b.1) :=
    hc.imp (fun h => Nat.ne_of_lt h)
  have hne : (List.insertionSort pageLe l).Pairwise (fun a b : Nat × String => a.1 ≠ b.1) :=
    hne_c.perm h1.symm (fun h => h.symm)
  have hslt : (List.insertionSort pageLe l).Pairwise pageLt :=
    (hsle.and hne).imp (fun h => Nat.lt_of_le_of_ne h.1 h.2)
  exact List.eq_of_perm_of_sorted h1 hslt hc

theorem renderChunk_perm (f : Nat → String) {order c : List Nat}
    (hp : order.Perm c) (hc : c.Pairwise (· < ·)) :
    renderChunk f order = joinSep SEP (c.map f) := by
  have hpairs : (order.map (fun p => (p, f p))).Perm (c.map (fun p => (p, f p))) :=
    hp.map _
  have hcs : (c.map (fun p => (p, f p))).Pairwise pageLt := by
    rw [List.pairwise_map]
    exact hc.imp (fun h => h)
  rw [renderChunk, insertionSort_eq_of_perm hpairs hcs, List.map_map]
  rfl

theorem chunkList_flatten : ∀ l : List α, (chunkList l).flatten = l
  | [] => rfl
  | [_] => rfl
  | a :: b :: rest => by simp [chunkList, chunkList_flatten rest]

theorem chunkList_ne_nil : ∀ (l : List α), ∀ c ∈ chunkList l, c ≠ []
  | [], c, hc => by simp [chunkList] at hc
  | [a], c, hc => by
      simp only [chunkList, List.mem_singleton] at hc
      simp [hc]
  | a :: b :: rest, c, hc => by
      simp only [chunkList, List.mem_cons] at hc
      rcases hc with h | h
      · simp [h]
      · exact chunkList_ne_nil rest c h

theorem chunkList_sorted : ∀ (l : List Nat), l.Pairwise (· < ·) →
    ∀ c ∈ chunkList l, c.Pairwise (· < ·)
  | [], _, c, hc => by simp [chunkList] at hc
  | [a], _, c, hc => by
      simp only [chunkList, List.mem_singleton] at hc
      simp [hc]
  | a :: b :: rest, h, c, hc => by
      simp only [chunkList, List.mem_cons] at hc
      rcases hc with rfl | hmem
      · have hab : a < b := (List.pairwise_cons.mp h).1 b (by simp)
        simp [hab]
      · exact chunkList_sorted rest h.of_cons.of_cons c hmem

theorem joinSep_append (sep : String) : ∀ (xs ys : List String), xs ≠ [] → ys ≠ [] →
    joinSep sep (xs ++ ys) = joinSep sep xs ++ sep ++ joinSep sep ys
  | [], _, hx, _ => absurd rfl hx
  | [x], ys, _, hy => by
      cases ys with
      | nil => exact absurd rfl hy
      | cons y ys => rfl
  | x :: x' :: xs, ys, hx, hy => by
      have ih := joinSep_append sep (x' :: xs) ys (by simp) hy
      show x ++ sep ++ joinSep sep (x' :: xs ++ ys) = _
      rw [ih]
      simp [joinSep, String.append_assoc]

theorem joinSep_chunks (f : Nat → String) : ∀ (cs : List (List Nat)),
    (∀ c ∈ cs, c ≠ []) →
    joinSep SEP (cs.map (fun c => joinSep SEP (c.map f))) = joinSep SEP (cs.flatten.map f)
  | [], _ => rfl
  | [c], h => by simp [List.flatten, joinSep]
  | c :: c2 :: cs, h => by
      have hc : c ≠ [] := h c (by simp)
      have hc2 : c2 ≠ [] := h c2 (by simp)
      have ih := joinSep_chunks f (c2 :: cs) (fun c' hc' => h c' (List.mem_cons_of_mem _ hc'))
      show joinSep SEP (c.map f) ++ SEP ++
          joinSep SEP ((c2 :: cs).map (fun c => joinSep SEP (c.map f))) = _
      rw [List.flatten_cons, List.map_append,
        joinSep_append SEP (c.map f) ((c2 :: cs).flatten.map f)
          (by simp [hc]) (by simp [List.flatten_cons, hc2]), ← ih]

theorem chunkLoop_ok_exists {o : Nat → Outcome} {render : List Nat → String} {cn : Nat} :
    ∀ {fuel attempt : Nat} {e : Option String} {md : String},
      (chunkLoop o render cn fuel attempt e).1 = Except.ok md →
      ∃ a order, o a = Outcome.ok order ∧ md = render order := by
  intro fuel
  induction fuel with
  | zero => intro attempt e md h; exact absurd h (by simp [chunkLoop])
  | succ fuel ih =>
      intro attempt e md h
      rcases ho : o attempt with msg | order
      · rw [chunkLoop, ho] at h
        by_cases ha : attempt ≤ MAX_RETRIES
        · simp only [ha, if_true] at h
          exact ih h
        · simp only [ha, if_false] at h
          exact ih h
      · rw [chunkLoop, ho] at h
        exact ⟨attempt, order, ho, (Except.ok.inj h).symm⟩

theorem runChunks_ok (f : Nat → String) (o : Nat → Nat → Outcome) :
    ∀ (cs : List (List Nat)) (cn : Nat) (md : String),
      (∀ i a order, o (cn + i) a = Outcome.ok order → order.Perm (cs.getD i [])) →
      (∀ c ∈ cs, c.Pairwise (· < ·)) →
      runChunks f o cn cs = Except.ok md →
      md = joinSep SEP (cs.map (fun c => joinSep SEP (c.map f))) := by
  intro cs
  induction cs with
  | nil =>
      intro cn md _ _ h
      exact ((Except.ok.inj h).symm : md = "")
  | cons c rest ih =>
      intro cn md hperm hsorted h
      rcases hres : runChunk (o cn) (renderChunk f) cn with e | md1
      · simp only [runChunks, hres] at h
        exact Except.noConfusion h
      · have hbody : md1 = joinSep SEP (c.map f) := by
          obtain ⟨a, order, hoa, hmd1⟩ := chunkLoop_ok_exists hres
          have hperm0 : order.Perm c := by
            have := hperm 0 a order (by rw [Nat.add_zero]; exact hoa)
            simpa using this
          rw [hmd1]
          exact renderChunk_perm f hperm0 (hsorted c (by simp))
        cases rest with
        | nil =>
            simp only [runChunks, hres] at h
            have : md = md1 := (Except.ok.inj h).symm
            rw [this, hbody]
            rfl
        | cons r rs =>
            rcases hrec : runChunks f o (cn + 1) (r :: rs) with e | restMd
            · simp only [runChunks, hres, hrec] at h
              exact Except.noConfusion h
            · simp only [runChunks, hres, hrec] at h
              have hmd : md = md1 ++ SEP ++ restMd := (Except.ok.inj h).symm
              have hrest : restMd = joinSep SEP ((r :: rs).map (fun c => joinSep SEP (c.map f))) := by
                refine ih (cn + 1) restMd ?_ ?_ hrec
                · intro i a order hoa
                  have := hperm (i + 1) a order (by rw [show cn + (i + 1) = cn + 1 + i by omega]; exact hoa)
                  simpa using this
                · intro c' hc'
                  exact hsorted c' (List.mem_cons_of_mem _ hc')
              rw [hmd, hbody, hrest]
              rfl

/-- C1.  For every job whose OCR phase completes, the final assembled text is
the pages' texts in ascending 1-based page-number order — regardless of the
completion order of the concurrent per-page OCR calls inside each chunk
(every permutation of a chunk's pages as completion order yields the same,
ascending, assembly). -/
theorem c1_assembled_in_page_order (n : Nat) (f : Nat → String)
    (o : Nat → Nat → Outcome)
    (h : ∀ cn a order, o cn a = Outcome.ok order →
      order.Perm ((chunkList (List.range' 1 n)).getD (cn - 1) []))
    (md : String) (hok : runJob f o n = Except.ok md) :
    md = joinSep SEP ((List.range' 1 n).map f) := by
  have hsorted := chunkList_sorted (List.range' 1 n) (List.pairwise_lt_range' 1 n 1 (by omega))
  have hne := chunkList_ne_nil (α := Nat) (List.range' 1 n)
  have h' : ∀ i a order, o (1 + i) a = Outcome.ok order →
      order.Perm ((chunkList (List.range' 1 n)).getD i []) := by
    intro i a order hoa
    have := h (1 + i) a order hoa
    simpa using this
  have hmd := runChunks_ok f o (chunkList (List.range' 1 n)) 1 md h' hsorted hok
  rw [hmd, joinSep_chunks f _ hne, chunkList_flatten]

/-- Witness for C1: a two-page job whose single chunk completes in reversed
order still assembles in ascending page order. -/
theorem c1_witness :
    ("A" ++ SEP ++ "B" : String) =
      joinSep SEP ((List.range' 1 2).map (fun p => if p = 1 then "A" else "B")) := by
  refine c1_assembled_in_page_order 2 (fun p => if p = 1 then "A" else "B")
    (fun cn _ => if cn = 1 then Outcome.ok [2, 1] else Outcome.fail "x") ?_ _ ?_
  · intro cn a order hoa
    by_cases hcn : cn = 1
    · subst hcn
      simp only [if_true] at hoa
      cases hoa
      decide
    · simp [hcn] at hoa
  · rfl

/-! ## Retry loop: attempt bound, backoff, exhaustion -/

/-- A chunk-outcome family in which some attempt within the retry budget
succeeds, every earlier attempt having failed. -/
def succeedsWithin (oc : Nat → Outcome) : Prop :=
  ∃ a, 1 ≤ a ∧ a ≤ MAX_RETRIES + 1 ∧
    (∀ b, 1 ≤ b → b < a → ∃ m, oc b = Outcome.fail m) ∧
    ∃ order, oc a = Outcome.ok order

theorem chunkLoop_first_success (o : Nat → Outcome) (render : List Nat → String) (cn : Nat)
    (a : Nat) (order : List Nat) (ha1 : 1 ≤ a) (ha2 : a ≤ MAX_RETRIES + 1)
    (hfail : ∀ b, 1 ≤ b → b < a → ∃ m, o b = Outcome.fail m)
    (hok : o a = Outcome.ok order) :
    (chunkLoop o render cn (MAX_RETRIES + 1) 1 none).1 = Except.ok (render order) := by
  rw [MAX_RETRIES] at ha2 ⊢
  interval_cases a
  · simp [chunkLoop, hok]
  · obtain ⟨m1, h1⟩ := hfail 1 (by omega) (by omega)
    simp [chunkLoop, h1, hok, MAX_RETRIES]
  · obtain ⟨m1, h1⟩ := hfail 1 (by omega) (by omega)
    obtain ⟨m2, h2⟩ := hfail 2 (by omega) (by omega)
    simp [chunkLoop, h1, h2, hok, MAX_RETRIES]

theorem chunkLoop_all_fail (o : Nat → Outcome) (render : List Nat → String) (cn : Nat)
    (msgs : Nat → String)
    (hfail : ∀ a, 1 ≤ a → a ≤ MAX_RETRIES + 1 → o a = Outcome.fail (msgs a)) :
    (chunkLoop o render cn (MAX_RETRIES + 1) 1 none).1 =
      Except.error ("Failed to process chunk " ++ toString cn ++ ": " ++ msgs (MAX_RETRIES + 1)) := by
  have h1 := hfail 1 (by omega) (by simp [MAX_RETRIES])
  have h2 := hfail 2 (by omega) (by simp [MAX_RETRIES])
  have h3 := hfail 3 (by omega) (by simp [MAX_RETRIES])
  simp [chunkLoop, h1, h2, h3, MAX_RETRIES, errMsg]

theorem runChunk_ok_of_succeedsWithin {oc : Nat → Outcome} (render : List Nat → String)
    (cn : Nat) (h : succeedsWithin oc) :
    ∃ md, (chunkLoop oc render cn (MAX_RETRIES + 1) 1 none).1 = Except.ok md := by
  obtain ⟨a, ha1, ha2, hfail, order, hok⟩ := h
  exact ⟨render order, chunkLoop_first_success oc render cn a order ha1 ha2 hfail hok⟩

/-- C3.  A chunk is attempted at most `MAX_RETRIES + 1` times (one initial
attempt plus `MAX_RETRIES = 2` retries), and the backoff delays waited before
the retries are `1000 * attempt` milliseconds for the failed attempts
`1, ..., k` (`k ≤ MAX_RETRIES`) — a delay growing linearly in the attempt
number. -/
theorem c3_attempts_bounded_backoff_linear (o : Nat → Outcome)
    (render : List Nat → String) (cn : Nat) :
    (chunkLoop o render cn (MAX_RETRIES + 1) 1 none).2.1 ≤ MAX_RETRIES + 1 ∧
    ∃ k ≤ MAX_RETRIES, (chunkLoop o render cn (MAX_RETRIES + 1) 1 none).2.2 =
      (List.range' 1 k).map (fun a => 1000 * a) := by
  rcases h1 : o 1 with m1 | r1
  · rcases h2 : o 2 with m2 | r2
    · rcases h3 : o 3 with m3 | r3
      · refine ⟨by simp [chunkLoop, h1, h2, h3, MAX_RETRIES], 2, by simp [MAX_RETRIES], ?_⟩
        simp [chunkLoop, h1, h2, h3, MAX_RETRIES]
        decide
      · refine ⟨by simp [chunkLoop, h1, h2, h3, MAX_RETRIES], 2, by simp [MAX_RETRIES], ?_⟩
        simp [chunkLoop, h1, h2, h3, MAX_RETRIES]
        decide
    · refine ⟨by simp [chunkLoop, h1, h2, MAX_RETRIES], 1, by simp [MAX_RETRIES], ?_⟩
      simp [chunkLoop, h1, h2, MAX_RETRIES]
  · refine ⟨by simp [chunkLoop, h1, MAX_RETRIES], 0, by simp [MAX_RETRIES], ?_⟩
    simp [chunkLoop, h1, MAX_RETRIES]

/-! ## Job-level runs of the chunk scheduler -/

theorem runChunks_error_at (f : Nat → String) (o : Nat → Nat → Outcome) :
    ∀ (cs : List (List Nat)) (cn0 k : Nat) (e : String),
      (∀ i < k, ∃ md, runChunk (o (cn0 + i)) (renderChunk f) (cn0 + i) = Except.ok md) →
      k < cs.length →
      runChunk (o (cn0 + k)) (renderChunk f) (cn0 + k) = Except.error e →
      runChunks f o cn0 cs = Except.error e := by
  intro cs
  induction cs with
  | nil => intro cn0 k e _ hk _; simp at hk
  | cons c rest ih =>
      intro cn0 k e hsucc hk hfail
      cases k with
      | zero =>
          rw [Nat.add_zero] at hfail
          simp only [runChunks, hfail]
      | succ j =>
          obtain ⟨md1, hmd1⟩ := hsucc 0 (by omega)
          rw [Nat.add_zero] at hmd1
          cases rest with
          | nil => simp at hk
          | cons r rs =>
              have hrec : runChunks f o (cn0 + 1) (r :: rs) = Except.error e := by
                refine ih (cn0 + 1) j e ?_ ?_ ?_
                · intro i hi
                  have := hsucc (i + 1) (by omega)
                  rwa [show cn0 + (i + 1) = cn0 + 1 + i by omega] at this
                · simp at hk ⊢; omega
                · rwa [show cn0 + (j + 1) = cn0 + 1 + j by omega] at hfail
              simp only [runChunks, hmd1, hrec]

theorem runChunks_all_ok (f : Nat → String) (o : Nat → Nat → Outcome) :
    ∀ (cs : List (List Nat)) (cn0 : Nat),
      (∀ i < cs.length, ∃ md, runChunk (o (cn0 + i)) (renderChunk f) (cn0 + i) = Except.ok md) →
      ∃ md, runChunks f o cn0 cs = Except.ok md := by
  intro cs
  induction cs with
  | nil => intro cn0 _; exact ⟨"", rfl⟩
  | cons c rest ih =>
      intro cn0 hsucc
      obtain ⟨md1, hmd1⟩ := hsucc 0 (by simp)
      rw [Nat.add_zero] at hmd1
      cases rest with
      | nil => exact ⟨md1, by simp only [runChunks, hmd1]⟩
      | cons r rs =>
          obtain ⟨restMd, hrec⟩ := ih (cn0 + 1) (fun i hi => by
            have := hsucc (i + 1) (by simp only [List.length_cons] at hi ⊢; omega)
            rwa [show cn0 + (i + 1) = cn0 + 1 + i by omega] at this)
          exact ⟨md1 ++ SEP ++ restMd, by simp only [runChunks, hmd1, hrec]⟩

theorem runChunks_congr (f : Nat → String) (o o' : Nat → Nat → Outcome) :
    ∀ (cs : List (List Nat)) (cn0 : Nat),
      (∀ i < cs.length,
        runChunk (o (cn0 + i)) (renderChunk f) (cn0 + i) =
          runChunk (o' (cn0 + i)) (renderChunk f) (cn0 + i)) →
      runChunks f o cn0 cs = runChunks f o' cn0 cs := by
  intro cs
  induction cs with
  | nil => intro cn0 _; rfl
  | cons c rest ih =>
      intro cn0 heq
      have h0 := heq 0 (by simp)
      rw [Nat.add_zero] at h0
      have hrec : runChunks f o (cn0 + 1) rest = runChunks f o' (cn0 + 1) rest := by
        refine ih (cn0 + 1) (fun i hi => ?_)
        have := heq (i + 1) (by simp only [List.length_cons] at hi ⊢; omega)
        rwa [show cn0 + (i + 1) = cn0 + 1 + i by omega] at this
      cases rest with
      | nil => rw [runChunks, runChunks, h0]
      | cons r rs =>
          rcases hres : runChunk (o cn0) (renderChunk f) cn0 with e | md
          · have e1 : runChunks f o cn0 (c :: r :: rs) = Except.error e := by
              simp only [runChunks, hres]
            have e2 : runChunks f o' cn0 (c :: r :: rs) = Except.error e := by
              simp only [runChunks, h0.symm.trans hres]
            rw [e1, e2]
          · rcases hrec2 : runChunks f o (cn0 + 1) (r :: rs) with e2 | md2
            · have e1 : runChunks f o cn0 (c :: r :: rs) = Except.error e2 := by
                simp only [runChunks, hres, hrec2]
              have e2' : runChunks f o' cn0 (c :: r :: rs) = Except.error e2 := by
                simp only [runChunks, h0.symm.trans hres, hrec.symm.trans hrec2]
              rw [e1, e2']
            · have e1 : runChunks f o cn0 (c :: r :: rs) = Except.ok (md ++ SEP ++ md2) := by
                simp only [runChunks, hres, hrec2]
              have e2' : runChunks f o' cn0 (c :: r :: rs) = Except.ok (md ++ SEP ++ md2) := by
                simp only [runChunks, h0.symm.trans hres, hrec.symm.trans hrec2]
              rw [e1, e2']

/-- The pages (1-based) of chunk number `cn` (1-based) of an `n`-page job. -/
def chunkAt (n cn : Nat) : List Nat := (chunkList (List.range' 1 n)).getD (cn - 1) []

/-- C4.  When chunk `cn` fails on all `MAX_RETRIES + 1` attempts (and the
chunks before it succeed within their budget, so chunk `cn` is reached), the
whole job fails with the last observed error's message and produces no
output. -/
theorem c4_chunk_exhaustion_fails_job (f : Nat → String) (o : Nat → Nat → Outcome)
    (n cn : Nat) (msgs : Nat → String)
    (hcn1 : 1 ≤ cn) (hcn2 : cn ≤ (chunkList (List.range' 1 n)).length)
    (hfail : ∀ a, 1 ≤ a → a ≤ MAX_RETRIES + 1 → o cn a = Outcome.fail (msgs a))
    (hprev : ∀ i, 1 ≤ i → i < cn → succeedsWithin (o i)) :
    runJob f o n =
      Except.error ("Failed to process chunk " ++ toString cn ++ ": " ++ msgs (MAX_RETRIES + 1)) := by
  rw [runJob]
  refine runChunks_error_at f o _ 1 (cn - 1) _ ?_ ?_ ?_
  · intro i hi
    exact runChunk_ok_of_succeedsWithin (renderChunk f) (1 + i)
      (hprev (1 + i) (by omega) (by omega))
  · omega
  · rw [show 1 + (cn - 1) = cn by omega]
    exact chunkLoop_all_fail (o cn) (renderChunk f) cn msgs hfail

/-- Witness for C4: a three-page job whose second chunk fails all three
attempts ends as a job-level error carrying the third attempt's message. -/
theorem c4_witness :
    runJob (fun _ => "T")
      (fun c a => if c = 1 then Outcome.ok [1, 2] else Outcome.fail ("boom" ++ toString a)) 3 =
      Except.error "Failed to process chunk 2: boom3" := by
  have h := c4_chunk_exhaustion_fails_job (fun _ => "T")
    (fun c a => if c = 1 then Outcome.ok [1, 2] else Outcome.fail ("boom" ++ toString a))
    3 2 (fun a => "boom" ++ toString a) (by omega) (by decide)
    (by intro a _ _; simp)
    (by
      intro i hi1 hi2
      have hi : i = 1 := by omega
      subst hi
      exact ⟨1, by omega, by simp [MAX_RETRIES],
        by intro b hb1 hb2; omega, [1, 2], by simp⟩)
  rw [h]
  exact congrArg Except.error (by decide)

/-- C5.  A job in which chunk `cn` fails on attempts `1..N` (with
`N ≤ MAX_RETRIES`) and succeeds on attempt `N + 1` completes successfully,
with output identical to the job in which the same chunk succeeds on its
first attempt, all other chunks behaving identically (and succeeding within
their budget). -/
theorem c5_retry_equiv_first_try (f : Nat → String) (n N cn : Nat)
    (o o' : Nat → Nat → Outcome) (order order' : List Nat)
    (hN : N ≤ MAX_RETRIES)
    (hcn1 : 1 ≤ cn) (hcn2 : cn ≤ (chunkList (List.range' 1 n)).length)
    (hfail : ∀ a, 1 ≤ a → a ≤ N → ∃ m, o cn a = Outcome.fail m)
    (hsucc : o cn (N + 1) = Outcome.ok order)
    (hsucc' : o' cn 1 = Outcome.ok order')
    (hperm : order.Perm (chunkAt n cn)) (hperm' : order'.Perm (chunkAt n cn))
    (hother : ∀ i, i ≠ cn → o i = o' i)
    (hothers : ∀ i, 1 ≤ i → i ≤ (chunkList (List.range' 1 n)).length → i ≠ cn →
      succeedsWithin (o i)) :
    ∃ md, runJob f o n = Except.ok md ∧ runJob f o' n = Except.ok md := by
  have hsorted : (chunkAt n cn).Pairwise (· < ·) := by
    have hlt : cn - 1 < (chunkList (List.range' 1 n)).length := by omega
    have hmem : chunkAt n cn ∈ chunkList (List.range' 1 n) := by
      rw [chunkAt, List.getD_eq_getElem _ _ hlt]
      exact List.getElem_mem hlt
    exact chunkList_sorted (List.range' 1 n)
      (List.pairwise_lt_range' 1 n 1 (by omega)) _ hmem
  have hchunk_o : runChunk (o cn) (renderChunk f) cn =
      Except.ok (joinSep SEP ((chunkAt n cn).map f)) := by
    have h1 := chunkLoop_first_success (o cn) (renderChunk f) cn (N + 1) order
      (by omega) (by omega) (fun b hb1 hb2 => hfail b hb1 (by omega)) hsucc
    rw [runChunk, h1, renderChunk_perm f hperm hsorted]
  have hchunk_o' : runChunk (o' cn) (renderChunk f) cn =
      Except.ok (joinSep SEP ((chunkAt n cn).map f)) := by
    have h1 := chunkLoop_first_success (o' cn) (renderChunk f) cn 1 order'
      (by omega) (by simp [MAX_RETRIES]) (fun b hb1 hb2 => by omega) hsucc'
    rw [runChunk, h1, renderChunk_perm f hperm' hsorted]
  have hcongr : runChunks f o 1 (chunkList (List.range' 1 n)) =
      runChunks f o' 1 (chunkList (List.range' 1 n)) := by
    refine runChunks_congr f o o' _ 1 (fun i hi => ?_)
    by_cases hieq : 1 + i = cn
    · rw [hieq, hchunk_o, hchunk_o']
    · rw [hother (1 + i) hieq]
  have hallok : ∀ i < (chunkList (List.range' 1 n)).length,
      ∃ md, runChunk (o (1 + i)) (renderChunk f) (1 + i) = Except.ok md := by
    intro i hi
    by_cases hieq : 1 + i = cn
    · rw [hieq, hchunk_o]; exact ⟨_, rfl⟩
    · exact runChunk_ok_of_succeedsWithin (renderChunk f) (1 + i)
        (hothers (1 + i) (by omega) (by omega) hieq)
  obtain ⟨md, hmd⟩ := runChunks_all_ok f o (chunkList (List.range' 1 n)) 1 hallok
  refine ⟨md, hmd, ?_⟩
  rw [runJob, ← hcongr]
  exact hmd

/-- Witness for C5: a three-page job whose first chunk fails once then
succeeds (in reversed completion order) yields the same successful output as
the job whose first chunk succeeds immediately. -/
theorem c5_witness :
    ∃ md,
      runJob (fun p => toString p)
        (fun c a =>
          if c = 1 then (if a = 1 then Outcome.fail "e" else Outcome.ok [2, 1])
          else Outcome.ok [3]) 3 = Except.ok md ∧
      runJob (fun p => toString p)
        (fun c _ => if c = 1 then Outcome.ok [1, 2] else Outcome.ok [3]) 3 =
        Except.ok md := by
  have hlen : (chunkList (List.range' 1 3)).length = 2 := by decide
  refine c5_retry_equiv_first_try (fun p => toString p) 3 1 1 _ _ [2, 1] [1, 2]
    (by simp [MAX_RETRIES]) (by omega) (by rw [hlen]; omega) ?_ (by simp) (by simp)
    (by decide) (by decide) ?_ ?_
  · intro a ha1 ha2
    have ha : a = 1 := by omega
    subst ha
    exact ⟨"e", by simp⟩
  · intro i hi
    funext a
    simp [hi]
  · intro i hi1 hi2 hineq
    rw [hlen] at hi2
    have hi : i = 2 := by omega
    subst hi
    exact ⟨1, by omega, by simp [MAX_RETRIES], by intro b hb1 hb2; omega, [3], by simp⟩

/-- Outcomes in which every chunk succeeds at its first attempt and delivers
its results already in ascending page order. -/
def inOrderOutcomes (n : Nat) : Nat → Nat → Outcome := fun cn _ => Outcome.ok (chunkAt n cn)

/-- C8.  A five-page document with chunk size 2 is partitioned into the
contiguous chunks `[1, 2]`, `[3, 4]`, `[5]` in that order, and the final
document is the chunk bodies joined with the separator between every
adjacent pair of chunks and not after the last chunk. -/
theorem c8_five_page_partition_join (f : Nat → String) :
    chunkList (List.range' 1 5) = [[1, 2], [3, 4], [5]] ∧
    runJob f (inOrderOutcomes 5) 5 =
      Except.ok (joinSep SEP
        [joinSep SEP [f 1, f 2], joinSep SEP [f 3, f 4], joinSep SEP [f 5]]) :=
  ⟨by decide, rfl⟩

/-! ## Rasterization fallback chain -/

/-- Net result of one rasterization strategy on one source document: the
attempt either threw (`err`) or produced this list of image files. -/
inductive StratResult where
  | err : StratResult
  | imgs : List String → StratResult
deriving DecidableEq

/-- The five strategy outcomes for one source document, in the order the
source tries them: pdf2pic, ImageMagick `magick`, ImageMagick `convert`,
GraphicsMagick `gm convert`, Puppeteer. -/
structure StratOutcomes where
  pdf2pic : StratResult
  magick : StratResult
  convert : StratResult
  gm : StratResult
  puppeteer : StratResult
deriving DecidableEq

/-- A strategy accepted only when it produced exactly `pageCount` images
(`if (images.length === pageCount) { conversionSuccess = true; }` — the
acceptance test of pdf2pic and of Puppeteer); otherwise the chain falls
through to `next`. -/
def tryExact (pageCount : Nat) (r : StratResult) (next : Option (List String)) :
    Option (List String) :=
  match r with
  | StratResult.err => next
  | StratResult.imgs l => if l.length = pageCount then some l else next

/-- A strategy accepted whenever it produced at least one image
(`if (imageFiles.length > 0) { ... conversionSuccess = true; }` — the
acceptance test of the three command-line strategies); otherwise the chain
falls through to `next`. -/
def tryNonempty (r : StratResult) (next : Option (List String)) : Option (List String) :=
  match r with
  | StratResult.err => next
  | StratResult.imgs l => if 0 < l.length then some l else next

/-- The five-strategy fallback chain in source order. -/
def convertChain (pageCount : Nat) (o : StratOutcomes) : Option (List String) :=
  tryExact pageCount o.pdf2pic
    (tryNonempty o.magick
      (tryNonempty o.convert
        (tryNonempty o.gm
          (tryExact pageCount o.puppeteer none))))

/-- The rasterization phase as the job consumes it: `none` models the
`"Failed to convert PDF to images."` 500 response, produced by
`if (!conversionSuccess || images.length === 0)`. -/
def rasterize (pageCount : Nat) (o : StratOutcomes) : Option (List String) :=
  match convertChain pageCount o with
  | none => none
  | some l => if l.length = 0 then none else some l

/-- Specification-side fallback chain for the amended C2: strategies are
tried in order; a strategy flagged `true` is accepted only on an exact
page-count match, a strategy flagged `false` whenever it produced at least
one image; the first accepted strategy's images are the result. -/
def specFallbackChain (pageCount : Nat) : List (StratResult × Bool) → Option (List String)
  | [] => none
  | (r, needsExact) :: rest =>
      match r with
      | StratResult.err => specFallbackChain pageCount rest
      | StratResult.imgs l =>
          if (if needsExact then l.length = pageCount else l ≠ []) then some l
          else specFallbackChain pageCount rest

/-- The source's strategy order with each strategy's acceptance flavour:
only the first (pdf2pic) and the last (Puppeteer) require the exact page
count. -/
def specStrategies (o : StratOutcomes) : List (StratResult × Bool) :=
  [(o.pdf2pic, true), (o.magick, false), (o.convert, false), (o.gm, false),
   (o.puppeteer, true)]

theorem spec_cons_exact (pageCount : Nat) (r : StratResult) (rest : List (StratResult × Bool)) :
    specFallbackChain pageCount ((r, true) :: rest) =
      tryExact pageCount r (specFallbackChain pageCount rest) := by
  cases r with
  | err => rfl
  | imgs l => simp [specFallbackChain, tryExact]

theorem spec_cons_nonempty (pageCount : Nat) (r : StratResult)
    (rest : List (StratResult × Bool)) :
    specFallbackChain pageCount ((r, false) :: rest) =
      tryNonempty r (specFallbackChain pageCount rest) := by
  cases r with
  | err => rfl
  | imgs l =>
      cases l with
      | nil => simp [specFallbackChain, tryNonempty]
      | cons x xs => simp [specFallbackChain, tryNonempty]

theorem convertChain_eq_spec (pageCount : Nat) (o : StratOutcomes) :
    convertChain pageCount o = specFallbackChain pageCount (specStrategies o) := by
  rw [specStrategies, spec_cons_exact, spec_cons_nonempty, spec_cons_nonempty,
    spec_cons_nonempty, spec_cons_exact]
  rfl

/-- C2 counterexample.  For a 4-page document: pdf2pic throws, ImageMagick
`magick` produces only 3 images (a count mismatch), and the remaining
strategies throw.  Every strategy has failed or produced a mismatched count,
so the claim requires the conversion-exhausted failure — but the code accepts
the ImageMagick result (its test is only `imageFiles.length > 0`) and the job
proceeds with 3 images for 4 pages. -/
theorem c2_counterexample :
    (["a", "b", "c"] : List String).length ≠ 4 ∧
    rasterize 4
      { pdf2pic := StratResult.err, magick := StratResult.imgs ["a", "b", "c"]
        convert := StratResult.err, gm := StratResult.err
        puppeteer := StratResult.err } = some ["a", "b", "c"] := by decide

/-- C2 (amended).  Only the pdf2pic and Puppeteer strategies require the
produced image count to equal the page count; the three command-line
strategies are accepted whenever they produce at least one image, mismatch
or not.  The job fails with the conversion error exactly when no strategy is
accepted under these per-strategy criteria, or the first accepted strategy
produced an empty image list. -/
theorem c2_amended_fallback_acceptance (pageCount : Nat) (o : StratOutcomes) :
    rasterize pageCount o = none ↔
      (specFallbackChain pageCount (specStrategies o) = none ∨
       specFallbackChain pageCount (specStrategies o) = some []) := by
  rw [← convertChain_eq_spec]
  unfold rasterize
  rcases h : convertChain pageCount o with _ | l
  · simp
  · cases l with
    | nil => simp
    | cons x xs => simp

/-! ## Progress record expiry -/

/-- One hour in milliseconds (`setTimeout(() => progressStore.delete(fileId), 3600000)`). -/
def HOUR : Nat := 3600000

/-- Whether a job id's progress record is present at time `t`, given the
times `ws` of the POST writes to that id.  Every write (re)creates the
record and schedules an unconditional deletion of the id one hour after
itself; no timer is ever cancelled.  So the record is present at `t` iff the
last event at or before `t` is a write: some write `w ≤ t` such that every
deletion fired by `t` fired at or before `w` (a deletion firing at the same
instant as a write is taken to fire first, the write re-creating the
record). -/
def present (ws : List Nat) (t : Nat) : Bool :=
  ws.any (fun w => w ≤ t && ws.all (fun w2 => !(w2 + HOUR ≤ t) || w2 + HOUR ≤ w))

/-- C9 counterexample.  Writes at times 0 and 1800000 (half an hour apart):
the claim says the record lives until one hour after the last write,
5400000, so it should still be present at 3600000 — but the first write's
uncancelled timer deletes the record at 3600000. -/
theorem c9_counterexample :
    1800000 ≤ 3600000 ∧ 3600000 < 1800000 + HOUR ∧
    present [0, 1800000] 3600000 = false := by decide

/-- C9 (amended).  Each write schedules an unconditional deletion one hour
after itself and later writes cancel nothing, so a record whose writes all
fall strictly within one hour of its first write is gone at every time from
one hour after the first write on: the lifetime runs from the first write,
not from the most recent one. -/
theorem c9_amended_expiry_from_first_write (ws : List Nat) (w0 t : Nat)
    (hmem : w0 ∈ ws) (_hmin : ∀ w ∈ ws, w0 ≤ w) (hspan : ∀ w ∈ ws, w < w0 + HOUR)
    (ht : w0 + HOUR ≤ t) :
    present ws t = false := by
  rw [present, List.any_eq_false]
  intro w hw
  have hwlt : w < w0 + HOUR := hspan w hw
  have hall : ws.all (fun w2 => !(w2 + HOUR ≤ t) || w2 + HOUR ≤ w) = false := by
    rw [List.all_eq_false]
    refine ⟨w0, hmem, ?_⟩
    have h2 : ¬ (w0 + HOUR ≤ w) := by omega
    simp [ht, h2]
  simp [hall]

/-- Witness for the amended C9 at the counterexample's concrete trace. -/
theorem c9_witness : present [0, 1800000] 3600000 = false :=
  c9_amended_expiry_from_first_write [0, 1800000] 0 3600000 (by decide) (by decide)
    (by decide) (by decide)

/-! ## Lemmas about `takeLast` -/

theorem takeLast_eq_self {l : List α} {n : Nat} (h : l.length ≤ n) : takeLast n l = l := by
  simp [takeLast, Nat.sub_eq_zero_of_le h]

theorem takeLast_cons {l : List α} {n : Nat} {a : α} (h : n ≤ l.length) :
    takeLast n (a :: l) = takeLast n l := by
  simp only [takeLast, List.length_cons]
  rw [Nat.succ_sub h]
  rfl

theorem length_takeLast_le (n : Nat) (l : List α) : (takeLast n l).length ≤ n := by
  simp only [takeLast, List.length_drop]
  omega

theorem takeLast_append_left (n : Nat) (xs ys : List α) :
    takeLast n (takeLast n xs ++ ys) = takeLast n (xs ++ ys) := by
  induction xs with
  | nil => simp [takeLast]
  | cons a xs ih =>
      by_cases h : (a :: xs).length ≤ n
      · rw [takeLast_eq_self h]
      · have h' : n ≤ xs.length := by simp only [List.length_cons] at h; omega
        have h'' : n ≤ (xs ++ ys).length := by
          simp only [List.length_append]; omega
        rw [takeLast_cons h', ih, List.cons_append, takeLast_cons h'']

theorem filter_takeLast (p : α → Bool) (n : Nat) {l : List α} (h : l.filter p = l) :
    (takeLast n l).filter p = takeLast n l := by
  rw [List.filter_eq_self] at h ⊢
  intro a ha
  exact h a ((List.drop_sublist _ _).subset ha)

/-- The log line contributed by one posted update (`update.log || ''`). -/
def logOf (u : ProgressUpdate) : String := u.log.getD ""

theorem foldl_applyUpdate_logs (us : List ProgressUpdate) :
    ∀ r : ProgressRecord, r.logs.filter (fun s => s ≠ "") = r.logs → r.logs.length ≤ 50 →
      (us.foldl applyUpdate r).logs =
        takeLast 50 ((r.logs ++ us.map logOf).filter (fun s => s ≠ "")) := by
  induction us with
  | nil =>
      intro r hf hl
      simp only [List.foldl_nil, List.map_nil, List.append_nil, hf]
      exact (takeLast_eq_self hl).symm
  | cons u us ih =>
      intro r hf hl
      have hf' : (applyUpdate r u).logs.filter (fun s => s ≠ "") = (applyUpdate r u).logs := by
        apply filter_takeLast
        rw [List.filter_eq_self]
        intro a ha
        exact (List.mem_filter.mp ha).2
      have hl' : (applyUpdate r u).logs.length ≤ 50 := length_takeLast_le _ _
      rw [List.foldl_cons, ih (applyUpdate r u) hf' hl']
      show takeLast 50 (((applyUpdate r u).logs ++ us.map logOf).filter (fun s => s ≠ "")) = _
      rw [List.filter_append, hf']
      show takeLast 50
          (takeLast 50 ((r.logs ++ [logOf u]).filter (fun s => s ≠ "")) ++
            (us.map logOf).filter (fun s => s ≠ "")) = _
      rw [takeLast_append_left, ← List.filter_append, List.append_assoc]
      rfl

/-- C6.  For every sequence of progress updates posted to a fresh job id, the
stored log window never holds more than 50 entries, and what is kept is
exactly the trailing window of the (nonempty) posted log lines — the oldest
entries are evicted first. -/
theorem c6_log_window_bounded (us : List ProgressUpdate) :
    (us.foldl applyUpdate defaultRecord).logs.length ≤ 50 ∧
    (us.foldl applyUpdate defaultRecord).logs =
      takeLast 50 ((us.map logOf).filter (fun s => s ≠ "")) := by
  have h := foldl_applyUpdate_logs us defaultRecord (by rfl) (by simp [defaultRecord])
  simp only [defaultRecord, List.nil_append] at h
  exact ⟨h ▸ length_takeLast_le 50 _, h⟩

/-- C7.  Querying the progress store for an id with no record yields the
404 not-found response, and querying right after a single update on a fresh
id yields exactly that update merged onto the default record, with the
update's (nonempty) log line as the single log entry. -/
theorem c7_get_after_first_post (u : ProgressUpdate) (s jid : String)
    (hlog : u.log = some s) (hs : s ≠ "") :
    getProgress emptyStore (some jid) = GetResult.notFound ∧
    getProgress (postProgress emptyStore jid u) (some jid) =
      GetResult.found
        { totalPages := u.totalPages.getD 0
          processedPages := u.processedPages.getD 0
          currentChunk := u.currentChunk.getD 0
          totalChunks := u.totalChunks.getD 0
          status := u.status.getD "starting"
          logs := [s] } := by
  refine ⟨rfl, ?_⟩
  simp [getProgress, postProgress, emptyStore, applyUpdate, defaultRecord, takeLast, hlog, hs]

/-- Witness for C7 at a concrete update. -/
theorem c7_witness :
    getProgress emptyStore (some "job1") = GetResult.notFound ∧
    getProgress
        (postProgress emptyStore "job1"
          { totalPages := some 3, status := some "working", log := some "hello" })
        (some "job1") =
      GetResult.found
        { totalPages := 3, processedPages := 0, currentChunk := 0, totalChunks := 0
          status := "working", logs := ["hello"] } := by
  have h := c7_get_after_first_post
    { totalPages := some 3, status := some "working", log := some "hello" }
    "hello" "job1" rfl (by decide)
  simpa using h

/-- C10 (code bug).  Evaluating the code-fence cleanup at the failing input:
a trimmed response consisting of the single line of three backticks makes the
line list empty after removing the opening fence, so the read of the last
line yields `undefined` and `.trim()` throws — the cleanup is not total. -/
theorem c10_cleanFences_throws : cleanFences "```".data = none := by decide

end PdfOcr
